import Mathlib

/-!
Shallow embedding of the core runtime components of the AItuber service:

* `CacheManager` (src/services/cache_manager.py): a TTL cache with
  size-bounded eviction and crash-"safe" persistence to a backing file
  plus a backup file.
* `SyncManager` (src/services/sync_manager.py): a single-slot playback
  synchronizer driven by asyncio tasks; modelled as an explicit state
  machine whose playback task advances by small steps, with cooperative
  cancellation delivered at suspension points.
* `VideoManager` (src/services/video_manager.py): the idle-pattern
  cursor and the talking-clip selection.

Conventions of the embedding:
* Machine time is `Int` (the Python code uses `time.time()` floats; only
  comparisons and differences matter to the claims). The sync manager
  uses `Nat` time with `0` as the "unset" sentinel, exactly as the source
  uses `start_time = 0`.
* Cache values and audio payloads are opaque `String`s.
* The backing file's bytes are modelled as `Option FileData`: `none`
  means the file does not exist; `FileData.ok entries` is a JSON dump
  that parses back to `entries`; `FileData.corrupt` is any byte content
  that `json.load` rejects. Byte-identity of file contents is equality
  of `Option FileData`.
* A Python function that can let an exception escape is modelled with an
  `Option` result, `none` meaning an uncaught raise; functions whose
  bodies cannot raise are total.
* Paths: `VideoManager` returns `self.video_dir / name`; since
  `video_dir` is a fixed prefix, the model returns the file name alone.
-/

/-! ## CacheManager (src/services/cache_manager.py) -/

/-- One cache entry: `{'value': ..., 'timestamp': ...}`. -/
structure CacheEntry where
  value : String
  timestamp : Int
deriving Repr, DecidableEq

/-- Parsed content of a cache file: a well-formed JSON dump of a cache
mapping, or bytes that `json.load` rejects. -/
inductive FileData where
  | ok (entries : List (String × CacheEntry))
  | corrupt
deriving Repr, DecidableEq

/-- The two on-disk files owned by one `CacheManager`:
`cache_<name>.json` and `cache_<name>_backup.json`; `none` = absent. -/
structure FS where
  cacheFile : Option FileData
  backupFile : Option FileData
deriving Repr, DecidableEq

/-- State of one `CacheManager` instance: the in-memory dict (insertion
ordered, as Python dicts are), `max_size`, `ttl`, and its two files. -/
structure CM where
  cache : List (String × CacheEntry)
  maxSize : Nat
  ttl : Int
  fs : FS
deriving Repr, DecidableEq

/-- How one `save_cache` call interacts with the file system:
it succeeds, the backup rename raises, or the write of the new file
raises leaving `leftover` as the cache file's content (`none` when
`open` itself failed, `some .corrupt` for a half-written dump). -/
inductive SaveOutcome where
  | success
  | renameFail
  | writeFail (leftover : Option FileData)
deriving Repr, DecidableEq

namespace CacheManager

/-- The `except` branch of `save_cache`: restore from backup when the
backup file exists (`self.backup_file.rename(self.cache_file)`). -/
def restoreBackup (fs : FS) : FS :=
  match fs.backupFile with
  | some b => { cacheFile := some b, backupFile := none }
  | none => fs

/-- `save_cache` (lines 36-51): rename the existing cache file to the
backup path, write the new dump, and on any exception restore from the
backup if one exists. The in-memory dict is whatever `st.cache` is; the
function mirrors the method body, which only touches the files. -/
def save_cache (outcome : SaveOutcome) (st : CM) : CM :=
  match outcome with
  | .success =>
      let fs1 : FS :=
        match st.fs.cacheFile with
        | some c => { cacheFile := none, backupFile := some c }
        | none => st.fs
      { st with fs := { fs1 with cacheFile := some (.ok st.cache) } }
  | .renameFail =>
      match st.fs.cacheFile with
      | some _ =>
          -- the rename raised before moving anything; run the except branch
          { st with fs := restoreBackup st.fs }
      | none =>
          -- no rename is attempted when the cache file is absent, so a
          -- rename failure cannot occur; the write then succeeds
          { st with fs := { st.fs with cacheFile := some (.ok st.cache) } }
  | .writeFail leftover =>
      let fs1 : FS :=
        match st.fs.cacheFile with
        | some c => { cacheFile := none, backupFile := some c }
        | none => st.fs
      let fs2 : FS := { fs1 with cacheFile := leftover }
      { st with fs := restoreBackup fs2 }

/-- `load_cache` (lines 19-34): if the cache file exists, parse it and
keep the entries with `now - timestamp < ttl`; a parse failure lands in
the except branch which sets `self.cache = {}`; a missing file leaves
`self.cache` as it was (the `{}` from `__init__`). Total: every path is
inside `try`/`except`. -/
def load_cache (now : Int) (st : CM) : CM :=
  match st.fs.cacheFile with
  | none => st
  | some (.ok entries) =>
      { st with cache := entries.filter (fun e => now - e.2.timestamp < st.ttl) }
  | some .corrupt => { st with cache := [] }

/-- Key membership test, `key in self.cache`. -/
def hasKey (k : String) (l : List (String × CacheEntry)) : Bool :=
  l.any (fun e => e.1 = k)

/-- `self.cache[key] = {...}`: overwrite in place when the key is
present (Python dicts keep the original position), append otherwise. -/
def insertEntry (k v : String) (now : Int) (l : List (String × CacheEntry)) :
    List (String × CacheEntry) :=
  if hasKey k l then
    l.map (fun e => if e.1 = k then (k, ⟨v, now⟩) else e)
  else
    l ++ [(k, ⟨v, now⟩)]

/-- `del self.cache[k0]`: remove the (unique) binding of `k0`. -/
def eraseKey (k0 : String) (l : List (String × CacheEntry)) :
    List (String × CacheEntry) :=
  l.eraseP (fun e => e.1 = k0)

/-- `min(self.cache.items(), key=lambda x: x[1]['timestamp'])`:
the first item attaining the minimal timestamp (Python's `min` keeps
the earliest of equals), `none` on an empty dict (where `min` raises
`ValueError`). -/
def oldestEntry : List (String × CacheEntry) → Option (String × CacheEntry)
  | [] => none
  | e :: es =>
      some (es.foldl (fun acc x => if x.2.timestamp < acc.2.timestamp then x else acc) e)

/-- `get` (lines 53-62): return the value iff the key is present and
`now - timestamp < ttl`; delete the entry when present but expired.
Total: the body cannot raise. -/
def get (now : Int) (k : String) (st : CM) : Option String × CM :=
  match st.cache.find? (fun e => e.1 = k) with
  | some e =>
      if now - e.2.timestamp < st.ttl then (some e.2.value, st)
      else (none, { st with cache := eraseKey k st.cache })
  | none => (none, st)

/-- `set` (lines 64-77): when `len(self.cache) >= self.max_size`, delete
the oldest entry (this raises `ValueError` — result `none` — when the
dict is empty, i.e. `max_size = 0`); then insert/overwrite the key with
the current timestamp and call `save_cache`. -/
def set (now : Int) (k v : String) (outcome : SaveOutcome) (st : CM) : Option CM :=
  if st.cache.length ≥ st.maxSize then
    match oldestEntry st.cache with
    | none => none
    | some o =>
        let c1 := eraseKey o.1 st.cache
        some (save_cache outcome { st with cache := insertEntry k v now c1 })
  else
    some (save_cache outcome { st with cache := insertEntry k v now st.cache })

/-- One recorded `set` call: its wall-clock time, key, value and the
fate of the persistence write it triggers. -/
structure SetOp where
  now : Int
  key : String
  value : String
  outcome : SaveOutcome
deriving Repr, DecidableEq

/-- Run one `set` call against the state; a raising call leaves the
state as it was (the `ValueError` fires before any mutation). -/
def setRun (op : SetOp) (st : CM) : CM :=
  match set op.now op.key op.value op.outcome st with
  | some st1 => st1
  | none => st

/-- Run a sequence of `set` calls. -/
def setSeq (ops : List SetOp) (st : CM) : CM :=
  ops.foldl (fun s op => setRun op s) st

end CacheManager

/-! ## SyncManager (src/services/sync_manager.py)

The synchronizer's cooperative concurrency is modelled operationally:
`_play_synced` is a small-step program (`PlayPhase` is its program
counter), created by `sync_media` via `asyncio.create_task` and advanced
only when the event loop schedules it (`playStep`). Cancellation is
delivered at suspension points; a task that is cancelled before its
coroutine ever ran does not execute its body, so neither its `except`
nor its `finally` block runs. Everything `sync_media` does between its
awaits is atomic with respect to the playback task, exactly as in a
single-threaded asyncio loop. -/

/-- The video metadata dict handed to `sync_media`: `.get('path')` and
`.get('duration', 0)` are the only reads, so the model keeps those two
optional fields. -/
structure VideoData where
  path : Option String
  duration : Option Nat
deriving Repr, DecidableEq

/-- Program counter of one `_play_synced` coroutine (lines 61-96):
await video queue, await audio queue, install the session fields and
start sleeping, sleep until `wakeAt`, done. -/
inductive PlayPhase where
  | getVideo
  | getAudio (v : VideoData)
  | install (v : VideoData) (a : String)
  | sleeping (wakeAt : Nat)
  | done
deriving Repr, DecidableEq

/-- One asyncio task running `_play_synced`: its program counter and
whether the coroutine has started executing (a task cancelled before its
first step never runs its body). -/
structure PlayTask where
  phase : PlayPhase
  started : Bool
deriving Repr, DecidableEq

/-- `SyncManager.__init__` fields (lines 13-19). `startTime = 0` is the
"not playing" sentinel, as in the source. -/
structure SyncState where
  currentTask : Option PlayTask
  videoQueue : List VideoData
  audioQueue : List String
  isPlaying : Bool
  currentVideoPath : Option String
  currentAudioData : Option String
  startTime : Nat
deriving Repr, DecidableEq

namespace SyncManager

/-- The freshly constructed manager. -/
def initState : SyncState :=
  { currentTask := none, videoQueue := [], audioQueue := [],
    isPlaying := false, currentVideoPath := none, currentAudioData := none,
    startTime := 0 }

/-- Advance the playback task by one scheduler step at wall-clock time
`now`. The install step (lines 69-79 up to the `await asyncio.sleep`)
runs with no intervening suspension, so it is one atomic step; the
duration is `video_data.get('duration', 0)`. Natural completion runs
lines 82-84 and the `finally` (lines 92-96) atomically. -/
def playStep (now : Nat) (s : SyncState) : SyncState :=
  match s.currentTask with
  | none => s
  | some t =>
      match t.phase with
      | .getVideo =>
          match s.videoQueue with
          | v :: rest =>
              { s with videoQueue := rest,
                       currentTask := some ⟨.getAudio v, true⟩ }
          | [] => { s with currentTask := some ⟨.getVideo, true⟩ }
      | .getAudio v =>
          match s.audioQueue with
          | a :: rest =>
              { s with audioQueue := rest,
                       currentTask := some ⟨.install v a, true⟩ }
          | [] => s
      | .install v a =>
          { s with currentVideoPath := v.path,
                   currentAudioData := some a,
                   startTime := now,
                   currentTask := some ⟨.sleeping (now + v.duration.getD 0), true⟩ }
      | .sleeping wakeAt =>
          if now ≥ wakeAt then
            { s with isPlaying := false,
                     currentVideoPath := none,
                     currentAudioData := none,
                     startTime := 0,
                     currentTask := some ⟨.done, true⟩ }
          else s
      | .done => s

/-- `stop_current_playback` (lines 43-52): cancel the running task and
await it. A started task observes `CancelledError` at its suspension
point: the `except` sets `is_playing = False` and the `finally` resets
the session fields. A task whose coroutine never started is cancelled
without its body (hence without `except`/`finally`) running. -/
def stop_current_playback (s : SyncState) : SyncState :=
  match s.currentTask with
  | some t =>
      if t.phase = .done then s
      else if t.started then
        { s with isPlaying := false,
                 currentVideoPath := none,
                 currentAudioData := none,
                 startTime := 0,
                 currentTask := some ⟨.done, t.started⟩ }
      else { s with currentTask := some ⟨.done, t.started⟩ }
  | none => s

/-- `clear_queues` (lines 54-59). -/
def clear_queues (s : SyncState) : SyncState :=
  { s with videoQueue := [], audioQueue := [] }

/-- `sync_media` (lines 21-41): cancel and await the current playback,
clear both queues, enqueue the new pair, create the playback task and
set `is_playing = True`. The new task has not run when the call
returns. -/
def sync_media (v : VideoData) (a : String) (s : SyncState) : Bool × SyncState :=
  let s1 := stop_current_playback s
  let s2 := clear_queues s1
  let s3 := { s2 with videoQueue := [v], audioQueue := [a] }
  (true, { s3 with currentTask := some ⟨.getVideo, false⟩, isPlaying := true })

/-- The snapshot returned by `get_playback_status` (lines 98-108). -/
structure Status where
  is_playing : Bool
  current_video : Option String
  has_audio : Bool
  elapsed_time : Nat
deriving Repr, DecidableEq

/-- `get_playback_status` (lines 98-108): a pure read of the shared
fields; elapsed time is `now - start_time` when `start_time > 0`. -/
def get_playback_status (now : Nat) (s : SyncState) : Status :=
  { is_playing := s.isPlaying,
    current_video := s.currentVideoPath,
    has_audio := s.currentAudioData.isSome,
    elapsed_time := if s.startTime > 0 then now - s.startTime else 0 }

end SyncManager

/-! ## VideoManager (src/services/video_manager.py) -/

/-- One step of `config['idle_pattern']`: `{video: key, repeat: int}`. -/
structure IdleStep where
  video : String
  repeatCount : Int
deriving Repr, DecidableEq

/-- The parts of `config/video_config.json` the scheduler reads:
`video_files.idle` (key → filename), `video_files.talking` (a list of
filenames) and `idle_pattern`. -/
structure VideoConfig where
  idleFiles : List (String × String)
  talkingFiles : List String
  idlePattern : List IdleStep
deriving Repr, DecidableEq

/-- The scheduler cursor (`current_idle_index`, `current_repeat`) plus
the immutable configuration. Both counters are Python ints. -/
structure VMState where
  config : VideoConfig
  currentIdleIndex : Int
  currentRepeat : Int
deriving Repr, DecidableEq

namespace VideoManager

/-- Python list indexing `l[i]` for an `int` index: in range for
`-len l ≤ i < len l` (negative indices count from the end), raising
`IndexError` (= `none`) otherwise. -/
def pyIndex (l : List α) (i : Int) : Option α :=
  if 0 ≤ i then l.get? i.toNat
  else if 0 ≤ i + l.length then l.get? (i + l.length).toNat
  else none

/-- The `try` body of `get_next_idle_video` (lines 96-108): look up the
pattern step and its video file name (either lookup can raise, making
the whole body `none`), then advance the cursor: at
`current_repeat >= repeat - 1` reset the repeat counter and advance the
index modulo the pattern length, signalling a pattern boundary;
otherwise increment the repeat counter. -/
def idleTryBody (st : VMState) : Option ((String × Bool) × VMState) :=
  match pyIndex st.config.idlePattern st.currentIdleIndex with
  | none => none
  | some step =>
      match st.config.idleFiles.lookup step.video with
      | none => none
      | some name =>
          if st.currentRepeat ≥ step.repeatCount - 1 then
            some ((name, true),
              { st with currentRepeat := 0,
                        currentIdleIndex :=
                          (st.currentIdleIndex + 1) % st.config.idlePattern.length })
          else
            some ((name, false), { st with currentRepeat := st.currentRepeat + 1 })

/-- `get_next_idle_video` (lines 93-114): the `try` body, or on any
exception the fallback `video_files['idle']['00']` with
`is_pattern_end = True` and the cursor untouched (both possible raises
happen before any cursor mutation). The fallback lookup itself raises
`KeyError` (= `none` overall) when the idle catalog has no `'00'`. -/
def get_next_idle_video (st : VMState) : Option ((String × Bool) × VMState) :=
  match idleTryBody st with
  | some r => some r
  | none =>
      match st.config.idleFiles.lookup "00" with
      | some d => some ((d, true), st)
      | none => none

/-- `n` successive `get_next_idle_video` calls, collecting the returned
(file name, pattern-end) pairs; `none` if any call raises. -/
def idleCalls : Nat → VMState → Option (List (String × Bool) × VMState)
  | 0, st => some ([], st)
  | n + 1, st =>
      match get_next_idle_video st with
      | none => none
      | some (out, st1) =>
          match idleCalls n st1 with
          | none => none
          | some (outs, st2) => some (out :: outs, st2)

/-- `get_talking_video` (lines 116-134): three-tier selection on the
text length — `talking[0]` below 50, `talking[1]` below 100, `talking[2]`
otherwise; an `IndexError` in the `try` falls back to `talking[0]`,
which itself raises (= `none`) on an empty catalog. -/
def get_talking_video (textLength : Int) (st : VMState) : Option String :=
  let talking := st.config.talkingFiles
  let tryR : Option String :=
    if textLength < 50 then talking.get? 0
    else if textLength < 100 then talking.get? 1
    else talking.get? 2
  match tryR with
  | some name => some name
  | none => talking.get? 0

end VideoManager

/-! ## Concrete fixtures used to instantiate the theorems -/

/-- A store whose backing file holds one entry while a stale backup file
(corrupt bytes, left by an earlier save) is still on disk. -/
def saveFixture : CM :=
  ⟨[("k", ⟨"v", 5⟩)], 10, 100, ⟨some (.ok [("a", ⟨"x", 0⟩)]), some .corrupt⟩⟩

/-- A store at `maxSize = 2` holding entries for `"a"` (older) and
`"b"` (newer). -/
def evictFixture : CM := ⟨[("a", ⟨"va", 0⟩), ("b", ⟨"vb", 1⟩)], 2, 100, ⟨none, none⟩⟩

/-- A freshly constructed store whose backing file holds one expired and
one fresh entry relative to `now = 10`, `ttl = 5`. -/
def loadFixture : CM :=
  ⟨[], 10, 5, ⟨some (.ok [("old", ⟨"v", 0⟩), ("new", ⟨"w", 8⟩)]), none⟩⟩

/-- A freshly constructed store whose backing file is unparseable. -/
def loadFixtureCorrupt : CM := ⟨[], 10, 5, ⟨some .corrupt, none⟩⟩

/-- A store with one entry inserted at time 0, `ttl = 5`. -/
def getFixture : CM := ⟨[("k", ⟨"v", 0⟩)], 10, 5, ⟨none, none⟩⟩

/-- An empty store with `maxSize = 2`. -/
def seqFixture : CM := ⟨[], 2, 100, ⟨none, none⟩⟩

/-- Three `set` calls against `seqFixture`, enough to force an eviction. -/
def seqOps : List CacheManager.SetOp :=
  [⟨0, "a", "va", .success⟩, ⟨1, "b", "vb", .success⟩, ⟨2, "c", "vc", .success⟩]

/-- Video metadata of the first and second synced sessions. -/
def vidA : VideoData := ⟨some "v1.mp4", some 100⟩

/-- Second session's video metadata. -/
def vidB : VideoData := ⟨some "v2.mp4", some 100⟩

/-- The sync state reached by calling `sync_media vidA "a1"` on the
fresh manager at time 10 and letting the playback task run three steps:
dequeue video, dequeue audio, install the session and start sleeping. -/
def syncActive : SyncState :=
  SyncManager.playStep 10 (SyncManager.playStep 10 (SyncManager.playStep 10
    (SyncManager.sync_media vidA "a1" SyncManager.initState).2))

/-- The state right after the second `sync_media` call, made at time 20
while the first session is mid-playback, before the event loop runs the
new task. -/
def syncAfterSecond : SyncState := (SyncManager.sync_media vidB "a2" syncActive).2

/-- A sync state whose playback task is about to install a video with
no `duration` field. -/
def syncNoDuration : SyncState :=
  { SyncManager.initState with
      currentTask := some ⟨.install ⟨some "v.jpg", none⟩ "aud", true⟩,
      isPlaying := true }

/-- A video configuration with a two-step idle pattern (`k0` three
times, then `k1` twice), an idle catalog containing the default key
`"00"`, and three talking clips. -/
def vmFixture : VMState :=
  { config :=
      { idleFiles := [("00", "f00.mp4"), ("k0", "f0.mp4"), ("k1", "f1.mp4")],
        talkingFiles := ["s.mp4", "m.mp4", "l.mp4"],
        idlePattern := [⟨"k0", 3⟩, ⟨"k1", 2⟩] },
    currentIdleIndex := 0, currentRepeat := 0 }

/-- A configuration with an empty idle pattern and no `"00"` idle entry:
both the `try` body and the `except` fallback of `get_next_idle_video`
raise. -/
def vmEmpty : VMState :=
  { config := { idleFiles := [], talkingFiles := [], idlePattern := [] },
    currentIdleIndex := 0, currentRepeat := 0 }

/-- A configuration whose idle pattern is empty (so the `try` body of
`get_next_idle_video` raises) but whose idle catalog does contain the
default key `"00"`, making the fallback succeed. -/
def vmBrokenCursor : VMState :=
  { config := { idleFiles := [("00", "f00.mp4")], talkingFiles := [],
                idlePattern := [] },
    currentIdleIndex := 0, currentRepeat := 0 }

/-! ## Helper lemmas about the cache dict model -/

namespace CacheManager

theorem save_cache_cache (oc : SaveOutcome) (st : CM) :
    (save_cache oc st).cache = st.cache := by
  unfold save_cache
  cases oc with
  | success => cases h : st.fs.cacheFile <;> simp [h]
  | renameFail => cases h : st.fs.cacheFile <;> simp [h]
  | writeFail leftover => cases h : st.fs.cacheFile <;> simp [h]

theorem save_cache_maxSize (oc : SaveOutcome) (st : CM) :
    (save_cache oc st).maxSize = st.maxSize := by
  unfold save_cache
  cases oc with
  | success => cases h : st.fs.cacheFile <;> simp [h]
  | renameFail => cases h : st.fs.cacheFile <;> simp [h]
  | writeFail leftover => cases h : st.fs.cacheFile <;> simp [h]

theorem hasKey_iff (k : String) (l : List (String × CacheEntry)) :
    hasKey k l = true ↔ ∃ e ∈ l, e.1 = k := by
  simp [hasKey, List.any_eq_true]

theorem length_insertEntry_le (k v : String) (now : Int)
    (l : List (String × CacheEntry)) :
    (insertEntry k v now l).length ≤ l.length + 1 := by
  unfold insertEntry
  split
  · simp
  · simp

theorem length_eraseKey_of_hasKey (k0 : String) (l : List (String × CacheEntry))
    (h : hasKey k0 l = true) : (eraseKey k0 l).length + 1 = l.length := by
  rw [hasKey_iff] at h
  obtain ⟨e, he, hek⟩ := h
  have hp : (fun x => decide (x.1 = k0)) e = true := by simp [hek]
  have hlen : (l.eraseP (fun x => decide (x.1 = k0))).length = l.length - 1 :=
    List.length_eraseP_of_mem he hp
  have hpos : 1 ≤ l.length := List.length_pos.mpr (by rintro rfl; cases he)
  simp only [eraseKey]
  omega

theorem not_hasKey_eraseKey_self (k0 : String) (l : List (String × CacheEntry))
    (hnd : (l.map Prod.fst).Nodup) : hasKey k0 (eraseKey k0 l) = false := by
  induction l with
  | nil => rfl
  | cons a l ih =>
      simp only [List.map_cons, List.nodup_cons] at hnd
      by_cases ha : a.1 = k0
      · rw [eraseKey, List.eraseP_cons_of_pos (by simp [ha])]
        cases hk : hasKey k0 l with
        | false => rfl
        | true =>
            rw [hasKey_iff] at hk
            obtain ⟨e, he, hek⟩ := hk
            exact absurd (by rw [ha, ← hek]; exact List.mem_map_of_mem Prod.fst he) hnd.1
      · rw [eraseKey, List.eraseP_cons_of_neg (by simp [ha])]
        have := ih hnd.2
        simp only [hasKey, List.any_cons, eraseKey] at this ⊢
        simp [ha, this]

theorem hasKey_eraseKey (k0 k1 : String) (l : List (String × CacheEntry))
    (hnd : (l.map Prod.fst).Nodup) :
    hasKey k1 (eraseKey k0 l) = true ↔ (hasKey k1 l = true ∧ k1 ≠ k0) := by
  constructor
  · intro h
    rw [hasKey_iff] at h
    obtain ⟨e, he, hek⟩ := h
    refine ⟨?_, ?_⟩
    · rw [hasKey_iff]
      exact ⟨e, List.mem_of_mem_eraseP he, hek⟩
    · intro hk
      have hall := not_hasKey_eraseKey_self k0 l hnd
      have hh : hasKey k0 (eraseKey k0 l) = true := by
        rw [hasKey_iff]; exact ⟨e, he, hk ▸ hek⟩
      rw [hh] at hall
      cases hall
  · rintro ⟨h1, h2⟩
    rw [hasKey_iff] at h1 ⊢
    obtain ⟨e, he, hek⟩ := h1
    refine ⟨e, ?_, hek⟩
    have hne : ¬((fun x => decide (x.1 = k0)) e = true) := by
      simp only [decide_eq_true_eq]
      rw [hek]
      exact h2
    simp only [eraseKey]
    exact (@List.mem_eraseP_of_neg (String × CacheEntry)
      (fun x => decide (x.1 = k0)) e l hne).mpr he

theorem hasKey_insertEntry (k v k1 : String) (now : Int)
    (l : List (String × CacheEntry)) :
    hasKey k1 (insertEntry k v now l) = true ↔ (k1 = k ∨ hasKey k1 l = true) := by
  unfold insertEntry
  split
  · rename_i hk
    have : hasKey k1 (l.map (fun e => if e.1 = k then (k, ⟨v, now⟩) else e)) = hasKey k1 l := by
      simp only [hasKey, List.any_map]
      congr 1
      funext e
      by_cases he : e.1 = k <;> simp [he]
    rw [this]
    constructor
    · exact Or.inr
    · rintro (h | h)
      · rw [h]; exact hk
      · exact h
  · simp only [hasKey, List.any_append, List.any_cons, List.any_nil,
      Bool.or_eq_true, decide_eq_true_eq]
    constructor
    · rintro (h | h)
      · exact Or.inr h
      · simp at h
        exact Or.inl h.symm
    · rintro (h | h)
      · right; simp [h]
      · exact Or.inl h

theorem oldestEntry_eq_none (l : List (String × CacheEntry)) :
    oldestEntry l = none ↔ l = [] := by
  cases l <;> simp [oldestEntry]

theorem foldl_older_mem (es : List (String × CacheEntry))
    (acc : String × CacheEntry) :
    es.foldl (fun a x => if x.2.timestamp < a.2.timestamp then x else a) acc = acc ∨
    es.foldl (fun a x => if x.2.timestamp < a.2.timestamp then x else a) acc ∈ es := by
  induction es generalizing acc with
  | nil => exact Or.inl rfl
  | cons x es ih =>
      simp only [List.foldl_cons]
      rcases ih (if x.2.timestamp < acc.2.timestamp then x else acc) with h | h
      · rw [h]
        split
        · exact Or.inr (List.mem_cons_self _ _)
        · exact Or.inl rfl
      · exact Or.inr (List.mem_cons_of_mem _ h)

theorem foldl_older_min (es : List (String × CacheEntry))
    (acc : String × CacheEntry) :
    (es.foldl (fun a x => if x.2.timestamp < a.2.timestamp then x else a) acc).2.timestamp ≤
      acc.2.timestamp ∧
    ∀ e ∈ es,
      (es.foldl (fun a x => if x.2.timestamp < a.2.timestamp then x else a) acc).2.timestamp ≤
        e.2.timestamp := by
  induction es generalizing acc with
  | nil => simp
  | cons x es ih =>
      simp only [List.foldl_cons]
      have h := ih (if x.2.timestamp < acc.2.timestamp then x else acc)
      constructor
      · refine le_trans h.1 ?_
        split <;> omega
      · intro e he
        rcases List.mem_cons.mp he with he | he
        · subst he
          refine le_trans h.1 ?_
          split <;> omega
        · exact h.2 e he

theorem find?_key_of_mem (k : String) (l : List (String × CacheEntry))
    (hnd : (l.map Prod.fst).Nodup) (e : String × CacheEntry)
    (he : e ∈ l) (hk : e.1 = k) :
    l.find? (fun x => x.1 = k) = some e := by
  induction l with
  | nil => cases he
  | cons a l ih =>
      simp only [List.map_cons, List.nodup_cons] at hnd
      by_cases ha : a.1 = k
      · rcases List.mem_cons.mp he with rfl | hel
        · simp [ha]
        · exact absurd (by rw [ha, ← hk]; exact List.mem_map_of_mem Prod.fst hel) hnd.1
      · rcases List.mem_cons.mp he with rfl | hel
        · exact absurd hk ha
        · have hrec := ih hnd.2 hel
          simpa [ha] using hrec

theorem find?_key_eq_none (k : String) (l : List (String × CacheEntry))
    (h : hasKey k l = false) :
    l.find? (fun x => x.1 = k) = none := by
  rw [List.find?_eq_none]
  intro a ha
  simp only [decide_eq_true_eq]
  intro hak
  have : hasKey k l = true := (hasKey_iff k l).mpr ⟨a, ha, hak⟩
  rw [this] at h
  cases h

theorem oldestEntry_spec (l : List (String × CacheEntry)) (o : String × CacheEntry)
    (h : oldestEntry l = some o) :
    o ∈ l ∧ ∀ e ∈ l, o.2.timestamp ≤ e.2.timestamp := by
  cases l with
  | nil => cases h
  | cons a es =>
      simp only [oldestEntry, Option.some.injEq] at h
      subst h
      constructor
      · rcases foldl_older_mem es a with h | h
        · rw [h]; exact List.mem_cons_self _ _
        · exact List.mem_cons_of_mem _ h
      · intro e he
        have := foldl_older_min es a
        rcases List.mem_cons.mp he with he | he
        · subst he; exact this.1
        · exact this.2 e he

end CacheManager

/-! ## Claim theorems: CacheStore -/

/-- C9: `load_cache`, run once at construction (so on an empty in-memory
dict), populates the mapping only with entries whose age relative to
`now` is below `ttl`; a missing backing file leaves the store empty and
an unparseable one yields an empty store via the `except` branch. The
model of `load_cache` is a total function: every path of the method body
sits inside its `try`/`except`, so `load_cache` never throws. -/
theorem claim_C9_load (now : Int) (st : CM) (hinit : st.cache = []) :
    (∀ e ∈ (CacheManager.load_cache now st).cache, now - e.2.timestamp < st.ttl) ∧
    (st.fs.cacheFile = none → (CacheManager.load_cache now st).cache = []) ∧
    (st.fs.cacheFile = some .corrupt → (CacheManager.load_cache now st).cache = []) := by
  cases hf : st.fs.cacheFile with
  | none =>
      refine ⟨?_, fun _ => ?_, fun h => ?_⟩
      · intro e he
        simp only [CacheManager.load_cache, hf, hinit] at he
        cases he
      · simp [CacheManager.load_cache, hf, hinit]
      · simp at h
  | some fd =>
      cases fd with
      | ok entries =>
          refine ⟨?_, fun h => ?_, fun h => ?_⟩
          · intro e he
            simp only [CacheManager.load_cache, hf, List.mem_filter,
              decide_eq_true_eq] at he
            exact he.2
          · simp at h
          · simp at h
      | corrupt =>
          refine ⟨?_, fun h => ?_, fun _ => ?_⟩
          · intro e he
            simp only [CacheManager.load_cache, hf] at he
            cases he
          · simp at h
          · simp [CacheManager.load_cache, hf]

/-- C9 witness: `claim_C9_load` applied to a concrete freshly
constructed store whose file holds one expired and one fresh entry. -/
theorem claim_C9_load_witness :
    loadFixture.cache = [] ∧
    ((∀ e ∈ (CacheManager.load_cache 10 loadFixture).cache,
        10 - e.2.timestamp < loadFixture.ttl) ∧
     (loadFixture.fs.cacheFile = none →
        (CacheManager.load_cache 10 loadFixture).cache = []) ∧
     (loadFixture.fs.cacheFile = some .corrupt →
        (CacheManager.load_cache 10 loadFixture).cache = [])) :=
  ⟨rfl, claim_C9_load 10 loadFixture rfl⟩

/-- C5: `get` returns the stored value iff the key is present (the
dict's keys are distinct, hence the `Nodup` hypothesis) and
`now - insertedAt < ttl`; on a present-but-expired key it returns
absent and removes the entry, so an immediately subsequent `get` on the
same key (at any later time) also returns absent. The model of `get` is
a total function: the method body cannot raise. -/
theorem claim_C5_get (now : Int) (k : String) (st : CM)
    (hnd : (st.cache.map Prod.fst).Nodup) :
    (∀ v, (CacheManager.get now k st).1 = some v ↔
        ∃ e ∈ st.cache, e.1 = k ∧ now - e.2.timestamp < st.ttl ∧ e.2.value = v) ∧
    (∀ e ∈ st.cache, e.1 = k → st.ttl ≤ now - e.2.timestamp →
        (CacheManager.get now k st).1 = none ∧
        CacheManager.hasKey k ((CacheManager.get now k st).2).cache = false ∧
        ∀ now2, (CacheManager.get now2 k ((CacheManager.get now k st).2)).1 = none) := by
  constructor
  · intro v
    constructor
    · intro h
      cases hf : st.cache.find? (fun x => x.1 = k) with
      | none => simp [CacheManager.get, hf] at h
      | some e =>
          simp only [CacheManager.get, hf] at h
          by_cases hlt : now - e.2.timestamp < st.ttl
          · simp only [if_pos hlt] at h
            refine ⟨e, List.mem_of_find?_eq_some hf, ?_, hlt, ?_⟩
            · have := List.find?_some hf
              simpa using this
            · simpa using h
          · simp [if_neg hlt] at h
    · rintro ⟨e, he, hek, hlt, hv⟩
      have hfind := CacheManager.find?_key_of_mem k st.cache hnd e he hek
      simp [CacheManager.get, hfind, if_pos hlt, hv]
  · intro e he hek httl
    have hnlt : ¬(now - e.2.timestamp < st.ttl) := not_lt.mpr httl
    have hfind := CacheManager.find?_key_of_mem k st.cache hnd e he hek
    have hgone : CacheManager.hasKey k (CacheManager.eraseKey k st.cache) = false :=
      CacheManager.not_hasKey_eraseKey_self k st.cache hnd
    refine ⟨?_, ?_, ?_⟩
    · simp [CacheManager.get, hfind, if_neg hnlt]
    · simp only [CacheManager.get, hfind, if_neg hnlt]
      exact hgone
    · intro now2
      simp only [CacheManager.get, hfind, if_neg hnlt]
      rw [CacheManager.find?_key_eq_none k _ hgone]

/-- C5 witness: `claim_C5_get` applied to a one-entry store
(`insertedAt = 0`, `ttl = 5`) read at `now = 10`. -/
theorem claim_C5_get_witness :
    (getFixture.cache.map Prod.fst).Nodup ∧
    ((∀ v, (CacheManager.get 10 "k" getFixture).1 = some v ↔
        ∃ e ∈ getFixture.cache, e.1 = "k" ∧
          10 - e.2.timestamp < getFixture.ttl ∧ e.2.value = v) ∧
     (∀ e ∈ getFixture.cache, e.1 = "k" → getFixture.ttl ≤ 10 - e.2.timestamp →
        (CacheManager.get 10 "k" getFixture).1 = none ∧
        CacheManager.hasKey "k" ((CacheManager.get 10 "k" getFixture).2).cache = false ∧
        ∀ now2,
          (CacheManager.get now2 "k" ((CacheManager.get 10 "k" getFixture).2)).1 = none)) :=
  ⟨by decide, claim_C5_get 10 "k" getFixture (by decide)⟩

/-- C1 counterexample: a `save_cache` that fails at the backup-rename
step, while a stale backup from an earlier save is still on disk, does
not leave the backing file byte-identical: the recovery path renames the
stale backup over the backing path, replacing the current content. -/
theorem claim_C1_counterexample :
    (CacheManager.save_cache .renameFail saveFixture).fs.cacheFile ≠
      saveFixture.fs.cacheFile ∧
    (CacheManager.save_cache .renameFail saveFixture).fs.cacheFile =
      some .corrupt := by
  decide

/-- C1 amended: when the *write* of the new file fails (the backup
rename either succeeded or was not needed) and the backing file existed
before the call, the backing file's content after `save_cache` returns
is byte-identical to its content before the failed attempt, restored
from the just-created backup; and the in-memory entries mapping is
unchanged by every save outcome. (As the counterexample shows, the
restoration guarantee does not extend to a failure of the backup rename
itself when a stale backup exists.) -/
theorem claim_C1_amended (st : CM) (c : FileData) (leftover : Option FileData)
    (hc : st.fs.cacheFile = some c) :
    (CacheManager.save_cache (.writeFail leftover) st).fs.cacheFile = some c ∧
    ∀ oc, (CacheManager.save_cache oc st).cache = st.cache := by
  constructor
  · simp [CacheManager.save_cache, hc, CacheManager.restoreBackup]
  · intro oc
    exact CacheManager.save_cache_cache oc st

/-- C1 amended, witness: a store whose backing file exists and whose
write fails leaving a half-written dump behind. -/
theorem claim_C1_amended_witness :
    saveFixture.fs.cacheFile = some (.ok [("a", ⟨"x", 0⟩)]) ∧
    ((CacheManager.save_cache (.writeFail (some .corrupt)) saveFixture).fs.cacheFile =
        some (.ok [("a", ⟨"x", 0⟩)]) ∧
     ∀ oc, (CacheManager.save_cache oc saveFixture).cache = saveFixture.cache) :=
  ⟨rfl, claim_C1_amended saveFixture (.ok [("a", ⟨"x", 0⟩)]) (some .corrupt) rfl⟩

/-- C3 counterexample: in a store holding exactly `maxSize` entries, a
`set` that overwrites the already-present key `"b"` still evicts the
oldest other entry `"a"`, because the code evicts whenever
`len(cache) >= max_size`, before checking whether the key is present. -/
theorem claim_C3_counterexample :
    CacheManager.hasKey "b" evictFixture.cache = true ∧
    evictFixture.cache.length = evictFixture.maxSize ∧
    (CacheManager.set 2 "b" "v2" .success evictFixture).map
      (fun s => CacheManager.hasKey "a" s.cache) = some false := by
  decide

/-- C3 amended: `set` evicts if and only if `len(entries) >= maxSize`
at the time of the call — even when the key being set is already
present. When `len < maxSize`, no entry is removed (every old key
survives and the new key is present). When `len >= maxSize` (and the
dict is nonempty, otherwise the call raises), exactly the first entry
with minimum `insertedAt` is removed before the insert; that entry can
be the very key being overwritten. -/
theorem claim_C3_amended (now : Int) (k v : String) (oc : SaveOutcome) (st : CM)
    (hnd : (st.cache.map Prod.fst).Nodup) :
    (st.cache.length < st.maxSize →
      ∃ st1, CacheManager.set now k v oc st = some st1 ∧
        ∀ k1, CacheManager.hasKey k1 st1.cache = true ↔
          (k1 = k ∨ CacheManager.hasKey k1 st.cache = true)) ∧
    (st.maxSize ≤ st.cache.length → st.cache ≠ [] →
      ∃ o, CacheManager.oldestEntry st.cache = some o ∧ o ∈ st.cache ∧
        (∀ e ∈ st.cache, o.2.timestamp ≤ e.2.timestamp) ∧
        ∃ st1, CacheManager.set now k v oc st = some st1 ∧
          ∀ k1, CacheManager.hasKey k1 st1.cache = true ↔
            (k1 = k ∨ (CacheManager.hasKey k1 st.cache = true ∧ k1 ≠ o.1))) := by
  constructor
  · intro hlt
    have hge : ¬(st.cache.length ≥ st.maxSize) := not_le.mpr hlt
    refine ⟨CacheManager.save_cache oc
      { st with cache := CacheManager.insertEntry k v now st.cache }, ?_, ?_⟩
    · simp [CacheManager.set, if_neg hge]
    · intro k1
      rw [CacheManager.save_cache_cache]
      exact CacheManager.hasKey_insertEntry k v k1 now st.cache
  · intro hge hne
    obtain ⟨o, ho⟩ : ∃ o, CacheManager.oldestEntry st.cache = some o := by
      cases h : CacheManager.oldestEntry st.cache with
      | none => exact absurd ((CacheManager.oldestEntry_eq_none _).mp h) hne
      | some o => exact ⟨o, rfl⟩
    have hspec := CacheManager.oldestEntry_spec st.cache o ho
    refine ⟨o, ho, hspec.1, hspec.2,
      CacheManager.save_cache oc
        { st with cache :=
            CacheManager.insertEntry k v now (CacheManager.eraseKey o.1 st.cache) },
      ?_, ?_⟩
    · simp [CacheManager.set, if_pos hge, ho]
    · intro k1
      rw [CacheManager.save_cache_cache]
      rw [CacheManager.hasKey_insertEntry]
      rw [CacheManager.hasKey_eraseKey o.1 k1 st.cache hnd]

/-- C3 amended, witness: the amended statement at the counterexample's
store: overwriting `"b"` in the full two-entry store evicts exactly the
oldest entry `"a"`. -/
theorem claim_C3_amended_witness :
    (evictFixture.cache.map Prod.fst).Nodup ∧
    ((evictFixture.cache.length < evictFixture.maxSize →
      ∃ st1, CacheManager.set 2 "b" "v2" .success evictFixture = some st1 ∧
        ∀ k1, CacheManager.hasKey k1 st1.cache = true ↔
          (k1 = "b" ∨ CacheManager.hasKey k1 evictFixture.cache = true)) ∧
     (evictFixture.maxSize ≤ evictFixture.cache.length → evictFixture.cache ≠ [] →
      ∃ o, CacheManager.oldestEntry evictFixture.cache = some o ∧
        o ∈ evictFixture.cache ∧
        (∀ e ∈ evictFixture.cache, o.2.timestamp ≤ e.2.timestamp) ∧
        ∃ st1, CacheManager.set 2 "b" "v2" .success evictFixture = some st1 ∧
          ∀ k1, CacheManager.hasKey k1 st1.cache = true ↔
            (k1 = "b" ∨ (CacheManager.hasKey k1 evictFixture.cache = true ∧ k1 ≠ o.1)))) :=
  ⟨by decide, claim_C3_amended 2 "b" "v2" .success evictFixture (by decide)⟩

/-- Auxiliary step bound for C4: one successful `set` keeps the entry
count within the (unchanged) `maxSize`, assuming it held before. -/
theorem set_bound (now : Int) (k v : String) (oc : SaveOutcome) (st : CM)
    (h : st.cache.length ≤ st.maxSize) :
    ∀ st1, CacheManager.set now k v oc st = some st1 →
      st1.cache.length ≤ st.maxSize ∧ st1.maxSize = st.maxSize := by
  intro st1 hst1
  by_cases hge : st.cache.length ≥ st.maxSize
  · rw [CacheManager.set, if_pos hge] at hst1
    cases ho : CacheManager.oldestEntry st.cache with
    | none => rw [ho] at hst1; cases hst1
    | some o =>
        rw [ho] at hst1
        simp only [Option.some.injEq] at hst1
        subst hst1
        constructor
        · rw [CacheManager.save_cache_cache]
          dsimp only
          have h1 := CacheManager.length_insertEntry_le k v now
            (CacheManager.eraseKey o.1 st.cache)
          have hmem := (CacheManager.oldestEntry_spec st.cache o ho).1
          have hk : CacheManager.hasKey o.1 st.cache = true :=
            (CacheManager.hasKey_iff _ _).mpr ⟨o, hmem, rfl⟩
          have h2 := CacheManager.length_eraseKey_of_hasKey o.1 st.cache hk
          omega
        · rw [CacheManager.save_cache_maxSize]
  · rw [CacheManager.set, if_neg hge] at hst1
    simp only [Option.some.injEq] at hst1
    subst hst1
    constructor
    · rw [CacheManager.save_cache_cache]
      dsimp only
      have h1 := CacheManager.length_insertEntry_le k v now st.cache
      omega
    · rw [CacheManager.save_cache_maxSize]

/-- Auxiliary step bound for C4 on `setRun` (a raising `set` leaves the
state untouched). -/
theorem setRun_bound (op : CacheManager.SetOp) (st : CM)
    (h : st.cache.length ≤ st.maxSize) :
    (CacheManager.setRun op st).cache.length ≤ st.maxSize ∧
    (CacheManager.setRun op st).maxSize = st.maxSize := by
  unfold CacheManager.setRun
  cases hs : CacheManager.set op.now op.key op.value op.outcome st with
  | none => exact ⟨h, rfl⟩
  | some st1 => exact set_bound op.now op.key op.value op.outcome st h st1 hs

/-- Auxiliary sequence bound for C4. -/
theorem setSeq_bound (ops : List CacheManager.SetOp) (st : CM)
    (h : st.cache.length ≤ st.maxSize) :
    (CacheManager.setSeq ops st).cache.length ≤ st.maxSize ∧
    (CacheManager.setSeq ops st).maxSize = st.maxSize := by
  induction ops generalizing st with
  | nil => exact ⟨h, rfl⟩
  | cons op ops ih =>
      have hstep := setRun_bound op st h
      have hmid : (CacheManager.setRun op st).cache.length ≤
          (CacheManager.setRun op st).maxSize := by
        rw [hstep.2]; exact hstep.1
      have htail := ih (CacheManager.setRun op st) hmid
      have hfold : CacheManager.setSeq (op :: ops) st =
          CacheManager.setSeq ops (CacheManager.setRun op st) := rfl
      rw [hfold]
      exact ⟨htail.1.trans (le_of_eq hstep.2), htail.2.trans hstep.2⟩

/-- C4: starting from any store with `len(entries) <= maxSize`, after
each call of any finite sequence of `set` calls the invariant
`len(entries) <= maxSize` still holds (stated for every prefix of the
sequence; a `set` that raises — `min` on an empty dict with
`max_size = 0` — leaves the state unchanged, so the invariant holds
then too). -/
theorem claim_C4_size_invariant (st : CM) (ops : List CacheManager.SetOp)
    (h : st.cache.length ≤ st.maxSize) :
    ∀ i : Nat, (CacheManager.setSeq (ops.take i) st).cache.length ≤ st.maxSize :=
  fun i => (setSeq_bound (ops.take i) st h).1

/-- C4 witness: three inserts into an empty `maxSize = 2` store; the
bound holds after every prefix. -/
theorem claim_C4_size_invariant_witness :
    seqFixture.cache.length ≤ seqFixture.maxSize ∧
    ∀ i : Nat,
      (CacheManager.setSeq (seqOps.take i) seqFixture).cache.length ≤
        seqFixture.maxSize :=
  ⟨by decide, claim_C4_size_invariant seqFixture seqOps (by decide)⟩

/-! ## Claim theorems: SyncManager -/

/-- C2 counterexample: two `sync_media` calls in quick succession (the
second arrives at time 20 while the first session, installed at time 10,
is still sleeping). The first session was fully visible before the
second call; immediately after the second call returns — before the
event loop ever runs the new playback task, a genuinely reachable
instant since neither `create_task` nor `get_playback_status` yields —
the status snapshot shows `is_playing = true` with `current_video =
none` and `has_audio = false`: exactly the partial mixture (new session
marked playing, its fields not yet installed) that the claim says is
never observable. -/
theorem claim_C2_counterexample :
    (SyncManager.get_playback_status 15 syncActive).is_playing = true ∧
    (SyncManager.get_playback_status 15 syncActive).current_video = some "v1.mp4" ∧
    (SyncManager.get_playback_status 20 syncAfterSecond).is_playing = true ∧
    (SyncManager.get_playback_status 20 syncAfterSecond).current_video = none ∧
    (SyncManager.get_playback_status 20 syncAfterSecond).has_audio = false := by
  decide

/-- C2 amended: the ordering half of the claim holds — `sync_media`
cancels and awaits the running session, whose `except`/`finally`
cleanup (fields reset, task done) completes before the new task is
created, and the single task slot holds at most one non-done task. But
the no-partial-state half fails: at the instant `sync_media` returns,
the new task has not run, so every status snapshot taken before the
event loop schedules it shows `is_playing = true` while the new
session's video/audio/startedAt still hold the reset (idle) values. -/
theorem claim_C2_amended (s : SyncState) (t : PlayTask) (v : VideoData) (a : String)
    (ht : s.currentTask = some t) (hstart : t.started = true)
    (hphase : t.phase ≠ .done) :
    (SyncManager.sync_media v a s).2.currentTask = some ⟨.getVideo, false⟩ ∧
    (SyncManager.sync_media v a s).2.videoQueue = [v] ∧
    (SyncManager.sync_media v a s).2.audioQueue = [a] ∧
    ∀ now, SyncManager.get_playback_status now (SyncManager.sync_media v a s).2 =
      { is_playing := true, current_video := none, has_audio := false,
        elapsed_time := 0 } := by
  have hstop : SyncManager.stop_current_playback s =
      { s with isPlaying := false, currentVideoPath := none,
               currentAudioData := none, startTime := 0,
               currentTask := some ⟨.done, t.started⟩ } := by
    unfold SyncManager.stop_current_playback
    rw [ht]
    simp [hphase, hstart]
  refine ⟨?_, ?_, ?_, ?_⟩
  · simp [SyncManager.sync_media, SyncManager.clear_queues, hstop]
  · simp [SyncManager.sync_media, SyncManager.clear_queues, hstop]
  · simp [SyncManager.sync_media, SyncManager.clear_queues, hstop]
  · intro now
    simp [SyncManager.sync_media, SyncManager.clear_queues, hstop,
      SyncManager.get_playback_status]

/-- C2 amended, witness: the concrete two-call run of the
counterexample, instantiating the amended theorem at the state where
the first session is mid-playback. -/
theorem claim_C2_amended_witness :
    syncActive.currentTask = some ⟨.sleeping 110, true⟩ ∧
    ((SyncManager.sync_media vidB "a2" syncActive).2.currentTask =
        some ⟨.getVideo, false⟩ ∧
     (SyncManager.sync_media vidB "a2" syncActive).2.videoQueue = [vidB] ∧
     (SyncManager.sync_media vidB "a2" syncActive).2.audioQueue = ["a2"] ∧
     ∀ now, SyncManager.get_playback_status now
         (SyncManager.sync_media vidB "a2" syncActive).2 =
       { is_playing := true, current_video := none, has_audio := false,
         elapsed_time := 0 }) :=
  ⟨by decide,
   claim_C2_amended syncActive ⟨.sleeping 110, true⟩ vidB "a2" (by decide)
     rfl (by decide)⟩

/-- C10: when the video metadata has no `duration` field,
`video_data.get('duration', 0)` makes the playback session sleep for 0:
the install step schedules the wake-up at the current instant, and the
very next scheduler step — still at the same time `now` — completes the
session, resetting `is_playing`, the video path, the audio payload and
`start_time` to the idle state; no step raises or blocks. -/
theorem claim_C10_no_duration (s : SyncState) (v : VideoData) (a : String)
    (now : Nat) (hdur : v.duration = none)
    (ht : s.currentTask = some ⟨.install v a, true⟩) :
    (SyncManager.playStep now s).currentTask = some ⟨.sleeping now, true⟩ ∧
    (SyncManager.playStep now (SyncManager.playStep now s)).currentTask =
      some ⟨.done, true⟩ ∧
    (SyncManager.playStep now (SyncManager.playStep now s)).isPlaying = false ∧
    (SyncManager.playStep now (SyncManager.playStep now s)).currentVideoPath = none ∧
    (SyncManager.playStep now (SyncManager.playStep now s)).currentAudioData = none ∧
    (SyncManager.playStep now (SyncManager.playStep now s)).startTime = 0 := by
  have h1 : SyncManager.playStep now s =
      { s with currentVideoPath := v.path, currentAudioData := some a,
               startTime := now,
               currentTask := some ⟨.sleeping (now + v.duration.getD 0), true⟩ } := by
    unfold SyncManager.playStep
    rw [ht]
  rw [hdur] at h1
  simp only [Option.getD_none, Nat.add_zero] at h1
  refine ⟨by rw [h1], ?_, ?_, ?_, ?_, ?_⟩ <;>
    rw [h1] <;>
    simp [SyncManager.playStep]

/-- C10 witness: the concrete no-duration session of `syncNoDuration`,
stepped twice at time 7. -/
theorem claim_C10_no_duration_witness :
    (⟨some "v.jpg", none⟩ : VideoData).duration = none ∧
    syncNoDuration.currentTask = some ⟨.install ⟨some "v.jpg", none⟩ "aud", true⟩ ∧
    ((SyncManager.playStep 7 syncNoDuration).currentTask =
        some ⟨.sleeping 7, true⟩ ∧
     (SyncManager.playStep 7 (SyncManager.playStep 7 syncNoDuration)).currentTask =
        some ⟨.done, true⟩ ∧
     (SyncManager.playStep 7 (SyncManager.playStep 7 syncNoDuration)).isPlaying = false ∧
     (SyncManager.playStep 7 (SyncManager.playStep 7 syncNoDuration)).currentVideoPath = none ∧
     (SyncManager.playStep 7 (SyncManager.playStep 7 syncNoDuration)).currentAudioData = none ∧
     (SyncManager.playStep 7 (SyncManager.playStep 7 syncNoDuration)).startTime = 0) :=
  ⟨rfl, rfl,
   claim_C10_no_duration syncNoDuration ⟨some "v.jpg", none⟩ "aud" 7 rfl rfl⟩

/-! ## Claim theorems: VideoManager -/

/-- One-step unfolding of `idleCalls`. -/
theorem idleCalls_succ (n : Nat) (st : VMState) :
    VideoManager.idleCalls (n + 1) st =
      (match VideoManager.get_next_idle_video st with
       | none => none
       | some (out, st1) =>
           match VideoManager.idleCalls n st1 with
           | none => none
           | some (outs, st2) => some (out :: outs, st2)) := rfl

/-- Auxiliary run lemma for C6: with the cursor at pattern index `i`
(step `stp`, resolving to file `name`) and `m + 1` calls remaining in
the current step (`current_repeat = repeatCount - 1 - m`), the next
`m + 1` calls return `name` with the boundary flag only on the last,
leaving the cursor at `(i + 1) % length` with `current_repeat = 0`. -/
theorem idleCalls_run (i : Nat) (stp : IdleStep) (name : String) (m : Nat) :
    ∀ st : VMState,
    st.currentIdleIndex = (i : Int) →
    st.config.idlePattern.get? i = some stp →
    st.config.idleFiles.lookup stp.video = some name →
    st.currentRepeat = stp.repeatCount - 1 - (m : Int) →
    (m : Int) ≤ stp.repeatCount - 1 →
    VideoManager.idleCalls (m + 1) st =
      some (List.replicate m (name, false) ++ [(name, true)],
        { config := st.config,
          currentIdleIndex := ((i : Int) + 1) % st.config.idlePattern.length,
          currentRepeat := 0 }) := by
  induction m with
  | zero =>
      intro st hidx hstep hname hrep hm
      have hpy : VideoManager.pyIndex st.config.idlePattern st.currentIdleIndex =
          some stp := by
        rw [hidx]
        unfold VideoManager.pyIndex
        rw [if_pos (Int.natCast_nonneg i)]
        simpa using hstep
      have hcond : st.currentRepeat ≥ stp.repeatCount - 1 := by
        rw [hrep]; simp
      have hbody : VideoManager.get_next_idle_video st =
          some ((name, true),
            { st with currentRepeat := 0,
                      currentIdleIndex :=
                        (st.currentIdleIndex + 1) % st.config.idlePattern.length }) := by
        unfold VideoManager.get_next_idle_video VideoManager.idleTryBody
        simp only [hpy, hname, if_pos hcond]
      rw [idleCalls_succ, hbody]
      simp [VideoManager.idleCalls, hidx]
  | succ m ih =>
      intro st hidx hstep hname hrep hm
      have hpy : VideoManager.pyIndex st.config.idlePattern st.currentIdleIndex =
          some stp := by
        rw [hidx]
        unfold VideoManager.pyIndex
        rw [if_pos (Int.natCast_nonneg i)]
        simpa using hstep
      have hncond : ¬(st.currentRepeat ≥ stp.repeatCount - 1) := by
        rw [hrep]
        push_cast
        omega
      have hbody : VideoManager.get_next_idle_video st =
          some ((name, false), { st with currentRepeat := st.currentRepeat + 1 }) := by
        unfold VideoManager.get_next_idle_video VideoManager.idleTryBody
        simp only [hpy, hname, if_neg hncond]
      have htail := ih { st with currentRepeat := st.currentRepeat + 1 }
        hidx hstep hname
        (by dsimp only; rw [hrep]; push_cast; ring)
        (by push_cast at hm ⊢; omega)
      rw [idleCalls_succ, hbody]
      dsimp only
      rw [htail]
      simp [List.replicate_succ]

/-- C6: for a pattern step with `repeatCount = r >= 1`, starting with
the cursor at that step and `current_repeat = 0`, `r` successive
`get_next_idle_video` calls all return the same video file, signal
`is_pattern_end` only on the `r`-th call, and leave the cursor at the
next pattern index modulo the pattern length with `current_repeat = 0`. -/
theorem claim_C6_idle_pattern (st : VMState) (i : Nat) (stp : IdleStep)
    (name : String) (r : Nat)
    (hidx : st.currentIdleIndex = (i : Int))
    (hstep : st.config.idlePattern.get? i = some stp)
    (hname : st.config.idleFiles.lookup stp.video = some name)
    (hr : stp.repeatCount = (r : Int)) (hr1 : 1 ≤ r)
    (hrep : st.currentRepeat = 0) :
    VideoManager.idleCalls r st =
      some (List.replicate (r - 1) (name, false) ++ [(name, true)],
        { config := st.config,
          currentIdleIndex := ((i : Int) + 1) % st.config.idlePattern.length,
          currentRepeat := 0 }) := by
  have hcast : ((r - 1 : Nat) : Int) = (r : Int) - 1 := by omega
  have hm : ((r - 1 : Nat) : Int) ≤ stp.repeatCount - 1 := by
    rw [hr, hcast]
  have hrep1 : st.currentRepeat = stp.repeatCount - 1 - ((r - 1 : Nat) : Int) := by
    rw [hr, hrep, hcast]
    ring
  have hrun := idleCalls_run i stp name (r - 1) st hidx hstep hname hrep1 hm
  rw [Nat.sub_add_cancel hr1] at hrun
  exact hrun

/-- C6 witness: the first step of `vmFixture`'s idle pattern (`k0`,
repeat 3): three calls return `f0.mp4`, the boundary flag fires on the
third only, and the cursor advances to index `1 % 2`. -/
theorem claim_C6_idle_pattern_witness :
    vmFixture.currentIdleIndex = ((0 : Nat) : Int) ∧
    vmFixture.config.idlePattern.get? 0 = some ⟨"k0", 3⟩ ∧
    vmFixture.config.idleFiles.lookup "k0" = some "f0.mp4" ∧
    (⟨"k0", 3⟩ : IdleStep).repeatCount = ((3 : Nat) : Int) ∧
    1 ≤ 3 ∧ vmFixture.currentRepeat = 0 ∧
    VideoManager.idleCalls 3 vmFixture =
      some (List.replicate 2 ("f0.mp4", false) ++ [("f0.mp4", true)],
        { config := vmFixture.config,
          currentIdleIndex := (((0 : Nat) : Int) + 1) %
            vmFixture.config.idlePattern.length,
          currentRepeat := 0 }) :=
  ⟨rfl, rfl, rfl, rfl, by omega, rfl,
   claim_C6_idle_pattern vmFixture 0 ⟨"k0", 3⟩ "f0.mp4" 3 rfl rfl rfl rfl
     (by omega) rfl⟩

/-- C7: `get_talking_video` maps a response length to a clip by three
tiers — below 50 the first configured talking clip, from 50 below 100
the second, from 100 up the third — whenever the talking catalog has
its three configured clips; in particular length 10 gives the first,
75 the second, 500 the third, boundary 50 the second and boundary 100
the third. -/
theorem claim_C7_talking_tiers (st : VMState) (s0 s1 s2 : String)
    (h0 : st.config.talkingFiles.get? 0 = some s0)
    (h1 : st.config.talkingFiles.get? 1 = some s1)
    (h2 : st.config.talkingFiles.get? 2 = some s2) :
    (∀ n : Int, VideoManager.get_talking_video n st =
      some (if n < 50 then s0 else if n < 100 then s1 else s2)) ∧
    VideoManager.get_talking_video 10 st = some s0 ∧
    VideoManager.get_talking_video 75 st = some s1 ∧
    VideoManager.get_talking_video 500 st = some s2 ∧
    VideoManager.get_talking_video 50 st = some s1 ∧
    VideoManager.get_talking_video 100 st = some s2 := by
  rw [List.get?_eq_getElem?] at h0 h1 h2
  have hall : ∀ n : Int, VideoManager.get_talking_video n st =
      some (if n < 50 then s0 else if n < 100 then s1 else s2) := by
    intro n
    unfold VideoManager.get_talking_video
    by_cases ha : n < 50
    · simp [ha, h0]
    · by_cases hb : n < 100
      · simp [ha, hb, h1]
      · simp [ha, hb, h2]
  refine ⟨hall, ?_, ?_, ?_, ?_, ?_⟩ <;> rw [hall] <;> norm_num

/-- C7 witness: the three-clip catalog of `vmFixture`. -/
theorem claim_C7_talking_tiers_witness :
    vmFixture.config.talkingFiles.get? 0 = some "s.mp4" ∧
    vmFixture.config.talkingFiles.get? 1 = some "m.mp4" ∧
    vmFixture.config.talkingFiles.get? 2 = some "l.mp4" ∧
    ((∀ n : Int, VideoManager.get_talking_video n vmFixture =
        some (if n < 50 then "s.mp4" else if n < 100 then "m.mp4" else "l.mp4")) ∧
     VideoManager.get_talking_video 10 vmFixture = some "s.mp4" ∧
     VideoManager.get_talking_video 75 vmFixture = some "m.mp4" ∧
     VideoManager.get_talking_video 500 vmFixture = some "l.mp4" ∧
     VideoManager.get_talking_video 50 vmFixture = some "m.mp4" ∧
     VideoManager.get_talking_video 100 vmFixture = some "l.mp4") :=
  ⟨rfl, rfl, rfl,
   claim_C7_talking_tiers vmFixture "s.mp4" "m.mp4" "l.mp4" rfl rfl rfl⟩

/-- C8 counterexample: `get_next_idle_video` is *not* raise-free for
every configuration and cursor state: with an empty idle pattern and no
`'00'` entry in the idle catalog, the `try` body raises (`IndexError`)
and the fallback lookup `config['video_files']['idle']['00']` inside
the `except` block raises `KeyError`, which escapes the method — the
model returns `none`. -/
theorem claim_C8_counterexample :
    VideoManager.get_next_idle_video vmEmpty = none := by decide

/-- C8 amended: provided the idle catalog contains the designated
default key `'00'`, `get_next_idle_video` never raises, and whenever
its `try` body fails internally it returns the default idle asset with
the boundary flag signalled `true` (and the cursor untouched). Without
the `'00'` entry the fallback itself raises, per the counterexample. -/
theorem claim_C8_amended (st : VMState) (d : String)
    (hd : st.config.idleFiles.lookup "00" = some d) :
    (∃ r, VideoManager.get_next_idle_video st = some r) ∧
    (VideoManager.idleTryBody st = none →
      VideoManager.get_next_idle_video st = some ((d, true), st)) := by
  constructor
  · cases htry : VideoManager.idleTryBody st with
    | some r =>
        exact ⟨r, by simp [VideoManager.get_next_idle_video, htry]⟩
    | none =>
        exact ⟨((d, true), st),
          by simp [VideoManager.get_next_idle_video, htry, hd]⟩
  · intro htry
    simp [VideoManager.get_next_idle_video, htry, hd]

/-- C8 amended, witness: an empty idle pattern whose catalog does hold
the `'00'` default: the call returns the default with boundary `true`. -/
theorem claim_C8_amended_witness :
    vmBrokenCursor.config.idleFiles.lookup "00" = some "f00.mp4" ∧
    ((∃ r, VideoManager.get_next_idle_video vmBrokenCursor = some r) ∧
     (VideoManager.idleTryBody vmBrokenCursor = none →
       VideoManager.get_next_idle_video vmBrokenCursor =
         some (("f00.mp4", true), vmBrokenCursor))) :=
  ⟨rfl, claim_C8_amended vmBrokenCursor "f00.mp4" rfl⟩
